import Mathlib

/-!
# Verification of the cargo-cacher core (`src/lib.rs`, `src/mirror.rs`)

A shallow embedding of the data model and the operations of the crate
mirroring tool: the `Source`/`Krate` identity model with its comparison
implementations, the derived `CloudId`/`LocalId` storage keys,
`Source::from_git_url`, `read_lock_file`'s package processing, and the two
mirror-engine operations `registry_index` and `locked_crates`.

Modelling conventions:
* Rust `String`s are Lean `String`s.  Rust's `Ord` on `str` is the
  lexicographic byte order of the UTF-8 encoding, which coincides with the
  lexicographic order on characters (UTF-8 byte order equals code-point
  order); Lean's core `compare` on `String` (`compareOfLessAndEq` over the
  lexicographic order) models it.
* `url::Url` values compare (`PartialEq`/`Ord` of the `url` crate) by their
  serialization string, so the `url` field stored inside `Source::Git` is
  modelled by its serialization `String`.  A URL value that is *inspected*
  (`query_pairs`) is modelled by a structure carrying the serialization
  together with the decoded query pairs.
* Byte lengths (`str::len`) and byte slicing (`&rev[..7]`) are modelled on
  the UTF-8 encoding via `Char.utf8Size`; an out-of-bounds or
  non-character-boundary slice is a Rust panic, represented explicitly.
* The external collaborators (storage backend, HTTP/git fetch client,
  TOML and URL parsers, `util::Canonicalized`) are abstracted as function
  parameters / environment records; fallible calls return `Except`.
-/

/-- Result of running a piece of Rust code that may return `Ok`, return
`Err`, or panic (e.g. on an out-of-bounds string slice). -/
inductive RResult (α : Type) where
  | ok (a : α)
  | err (e : String)
  | panicked (msg : String)
deriving Repr, DecidableEq

/-- `true` iff the run ended in `Err`. -/
def RResult.isErr : RResult α → Bool
  | .err _ => true
  | _ => false

/-- `true` iff the run ended in a panic. -/
def RResult.isPanic : RResult α → Bool
  | .panicked _ => true
  | _ => false

/-- `true` iff an `Except` computation succeeded (Rust `Result::is_ok`). -/
def Except.isOkB : Except String α → Bool
  | .ok _ => true
  | .error _ => false

/-- `enum Source` from `src/lib.rs`: either a crates.io registry dependency
identified by its checksum, or a git dependency.  The `url` field holds the
serialization of the stored `url::Url` (the `url` crate compares `Url`s by
serialization, so this is exactly what all derived comparisons on `Source`
see). -/
inductive Source where
  | cratesIo (chksum : String)
  | git (url : String) (rev : String) (ident : String)
deriving Repr, DecidableEq

/-- The derived `Ord` of `Source` (`#[derive(PartialOrd, Ord)]` in
`src/lib.rs`): variants compare by declaration order (`CratesIo` before
`Git`), `CratesIo` by checksum, `Git` lexicographically by
`(url, rev, ident)` in field declaration order. -/
def Source.cmp : Source → Source → Ordering
  | .cratesIo a, .cratesIo b => compare a b
  | .cratesIo _, .git _ _ _ => .lt
  | .git _ _ _, .cratesIo _ => .gt
  | .git u₁ r₁ i₁, .git u₂ r₂ i₂ =>
      (compare u₁ u₂).then ((compare r₁ r₂).then (compare i₁ i₂))

/-- `struct Krate` from `src/lib.rs`. -/
structure Krate where
  name : String
  version : String
  source : Source
deriving Repr, DecidableEq

/-- The manual `impl PartialEq for Krate`: equality looks only at
`source`. -/
def Krate.beq (a b : Krate) : Bool := decide (a.source = b.source)

/-- The manual `impl PartialOrd for Krate`: comparison delegates to the
`source` fields (it always returns `Some`, modelled by returning the
`Ordering` directly). -/
def Krate.partialCmp (a b : Krate) : Ordering := Source.cmp a.source b.source

/-- The *derived* `Ord` of `Krate` (`#[derive(Ord, ...)]` in `src/lib.rs`):
structural lexicographic comparison by field declaration order
`(name, version, source)`.  Note this disagrees with the manual
`PartialEq`/`PartialOrd` impls, which look only at `source`. -/
def Krate.cmp (a b : Krate) : Ordering :=
  (compare a.name b.name).then
    ((compare a.version b.version).then (Source.cmp a.source b.source))

/-- `impl Display for CloudId`: the remote storage key of a crate —
the checksum for a registry source, `"{ident}-{rev}"` for a git source. -/
def Krate.cloud_id (k : Krate) : String :=
  match k.source with
  | .cratesIo chksum => chksum
  | .git _ rev ident => s!"{ident}-{rev}"

/-- `impl Display for LocalId`: the local/display name of a crate —
`"{name}-{version}.crate"` for a registry source, the bare `ident` for a
git source (the revision is ignored). -/
def Krate.local_id (k : Krate) : String :=
  match k.source with
  | .cratesIo _ => s!"{k.name}-{k.version}.crate"
  | .git _ _ ident => ident

/-- A parsed `url::Url` as inspected by `from_git_url`: its serialization
plus the decoded `application/x-www-form-urlencoded` query pairs in order
(what `Url::query_pairs()` yields). -/
structure Url where
  serialization : String
  queryPairs : List (String × String)
deriving Repr, DecidableEq

/-- `url.query_pairs().find(|(k, _)| k == "rev")`: the value of the first
query pair whose key is `"rev"`. -/
def Url.findRev (u : Url) : Option String :=
  (u.queryPairs.find? (fun kv => kv.1 == "rev")).map (·.2)

/-- `str::len` of Rust: the length of the UTF-8 encoding in bytes. -/
def utf8Len (s : String) : Nat := (s.data.map Char.utf8Size).sum

/-- Take the characters making up exactly the first `n` bytes of the UTF-8
encoding; `none` when `n` overruns the string or falls strictly inside a
character (the two conditions under which Rust's `&s[..n]` panics). -/
def takeBytes : List Char → Nat → Option (List Char)
  | _, 0 => some []
  | [], _ + 1 => none
  | c :: cs, n + 1 =>
      if c.utf8Size ≤ n + 1 then (takeBytes cs (n + 1 - c.utf8Size)).map (c :: ·)
      else none

/-- Rust `&s[..n]`: the prefix of `s` occupying the first `n` bytes, when
`n` is in bounds and on a character boundary. -/
def byteSlicePrefix (s : String) (n : Nat) : Option String :=
  (takeBytes s.data n).map List.asString

/-- `Source::from_git_url` from `src/lib.rs`.  The canonicalization step
(`util::Canonicalized::try_from` followed by `.ident()`) lives in
`src/util.rs`, which is not part of the sources; it is passed in as the
function `canon`, returning the canonicalized URL's serialization together
with the `ident`, or an error.  Modelled from the spec: `util::Canonicalized`
normalizes the URL to a stable form and derives a key-safe `ident`
(spec §4.1); its internals are opaque here.

The steps, in source order: find the `rev` query pair, failing if absent;
fail if the value is shorter than 7 *bytes*; slice the first 7 bytes
(`&rev[..7]` — a panic when byte offset 7 is not a character boundary);
canonicalize, propagating its error; build the `Git` source. -/
def Source.from_git_url (canon : Url → Except String (String × String))
    (url : Url) : RResult Source :=
  match url.findRev with
  | none => .err "url doesn't contain a revision specifier"
  | some rev =>
      if utf8Len rev < 7 then .err s!"revision specififer {rev} is too short"
      else
        match byteSlicePrefix rev 7 with
        | none => .panicked "byte index 7 is not a char boundary"
        | some rev7 =>
            match canon url with
            | .error e => .err e
            | .ok (curl, ident) => .ok (.git curl rev7 ident)

/-- A raw lock-file package record (`struct Package` in `src/lib.rs`):
`source` is absent for local/path dependencies, `checksum` is present only
in the V2 lock format. -/
structure Package where
  name : String
  version : String
  source : Option String
  checksum : Option String
deriving Repr, DecidableEq

/-- `struct LockContents`: the package records in file order plus the
legacy (V1) metadata section, a `BTreeMap<String, String>` modelled as an
association list. -/
structure LockContents where
  package : List Package
  metadata : List (String × String)
deriving Repr, DecidableEq

/-- `BTreeMap::remove`: take out the entry with the given key, returning
its value and the remaining map. -/
def removeKey (m : List (String × String)) (k : String) :
    Option (String × List (String × String)) :=
  match m with
  | [] => none
  | (k', v) :: rest =>
      if k' = k then some (v, rest)
      else (removeKey rest k).map (fun p => (p.1, (k', v) :: p.2))

/-- The crates.io registry locator string compared against `source`. -/
def cratesIoRegistry : String :=
  "registry+https://github.com/rust-lang/crates.io-index"

/-- The composite lookup key written into the `lookup` buffer for the
legacy metadata section. -/
def checksumKey (name version : String) : String :=
  s!"checksum {name} {version} ({cratesIoRegistry})"

/-- Prepend a krate to the output of the remaining iteration (a `push`
onto `krates`), propagating a downstream error or panic. -/
def withKrate (k : Krate) : RResult (List Krate) → RResult (List Krate)
  | .ok l => .ok (k :: l)
  | .err e => .err e
  | .panicked m => .panicked m

/-- The per-package loop of `read_lock_file` (`for p in locks.package`),
threading the mutable `locks.metadata` map.  `parseUrl` abstracts
`Url::parse` (the external `url` crate), `canon` the canonicalizer as in
`Source.from_git_url`.  For each record, in file order:
no `source` → skip; the crates.io registry locator → push a `CratesIo`
krate from the inline checksum, or else from the consumed metadata entry,
or silently drop; any other source → parse as URL (parse failure: log and
skip), then `Source::from_git_url` (error: log and skip; its panic, being
a panic, aborts the whole call). -/
def processPackages (parseUrl : String → Except String Url)
    (canon : Url → Except String (String × String)) :
    List Package → List (String × String) → RResult (List Krate)
  | [], _ => .ok []
  | p :: rest, meta =>
      match p.source with
      | none => processPackages parseUrl canon rest meta
      | some src =>
          if src = cratesIoRegistry then
            match p.checksum with
            | some chksum =>
                withKrate ⟨p.name, p.version, .cratesIo chksum⟩
                  (processPackages parseUrl canon rest meta)
            | none =>
                match removeKey meta (checksumKey p.name p.version) with
                | some (chksum, meta') =>
                    withKrate ⟨p.name, p.version, .cratesIo chksum⟩
                      (processPackages parseUrl canon rest meta')
                | none => processPackages parseUrl canon rest meta
          else
            match parseUrl src with
            | .error _ => processPackages parseUrl canon rest meta
            | .ok url =>
                match Source.from_git_url canon url with
                | .ok s =>
                    withKrate ⟨p.name, p.version, s⟩
                      (processPackages parseUrl canon rest meta)
                | .err _ => processPackages parseUrl canon rest meta
                | .panicked m => .panicked m

/-- `read_lock_file` from `src/lib.rs`, starting after the whole-file TOML
parse (whose failure is fatal and out of scope of the per-record
processing). -/
def read_lock_file (parseUrl : String → Except String Url)
    (canon : Url → Except String (String × String))
    (locks : LockContents) : RResult (List Krate) :=
  processPackages parseUrl canon locks.package locks.metadata

/-- Raw object bytes moved between the fetch client and the backend. -/
abbrev Bytes := String

/-- The collaborators consumed by `locked_crates`: the backend `list()`
call and, per krate, the `fetch::from_crates_io` fetch and the backend
`upload`. -/
structure MirrorEnv where
  listResult : Except String (List String)
  fetchCrate : Krate → Except String Bytes
  uploadCrate : Krate → Bytes → Except String Nat

/-- Observable calls made by the transfer phase of `locked_crates`. -/
inductive Event where
  | fetch (k : Krate)
  | upload (k : Krate)
deriving Repr, DecidableEq

/-- The order `Vec<String>::sort()` establishes (Rust string `Ord`). -/
def strRel (a b : String) : Prop := compare a b ≠ Ordering.gt

instance : DecidableRel strRel := fun _ _ =>
  inferInstanceAs (Decidable ¬ _)

/-- The order `to_mirror.sort()` establishes between adjacent elements.
`Vec::sort` compares elements with `PartialOrd::lt`, which for `Krate` is
the manual source-only impl; a stable sort with that `is_less` leaves
every adjacent pair `(a, b)` with `¬(b < a)`, i.e. in this relation. -/
def krateRel (a b : Krate) : Prop := Krate.partialCmp a b ≠ Ordering.gt

instance : DecidableRel krateRel := fun _ _ =>
  inferInstanceAs (Decidable ¬ _)

/-- One step of `Vec::dedup`: `a` is the last retained element; every
following element equal (by `beq`) to the last retained one is dropped. -/
def dedupFrom (beq : α → α → Bool) (a : α) : List α → List α
  | [] => []
  | b :: l => if beq a b then dedupFrom beq a l else b :: dedupFrom beq b l

/-- `Vec::dedup`: remove *consecutive* duplicates (by the given equality),
keeping the first element of each run. -/
def rustDedup (beq : α → α → Bool) : List α → List α
  | [] => []
  | a :: l => a :: dedupFrom beq a l

/-- The diff step of `locked_crates`: sort the backend's key list, then
keep every krate whose `cloud_id` the binary search does not find.
`Vec::sort` (a stable sort; stable sorting by a total preorder has a
unique result, so any stable sort models it) is rendered as
`List.insertionSort`, and `slice::binary_search_by` over a list sorted by
the same string order succeeds exactly on members (the documented std
contract), so the lookup is modelled by membership in the sorted list. -/
def toMirror (names : List String) (krates : List Krate) : List Krate :=
  let sorted := List.insertionSort strRel names
  krates.filter (fun k => !decide (k.cloud_id ∈ sorted))

/-- The needing-mirroring set after `to_mirror.sort(); to_mirror.dedup();`:
sort (by the source-only `PartialOrd`, see `krateRel` and `toMirror` for
the stable-sort rendering) then remove adjacent duplicates (by the
source-only `PartialEq`). -/
def scheduled (names : List String) (krates : List Krate) : List Krate :=
  rustDedup Krate.beq (List.insertionSort krateRel (toMirror names krates))

/-- The parallel transfer phase (`to_mirror.par_iter().for_each(...)`),
serialized in work-list order (rayon guarantees no cross-task ordering,
and the tasks share no state, so any serialization observes the same
per-item behavior): fetch each krate; on fetch success attempt the
upload; either failure is only logged. -/
def transferItem (env : MirrorEnv) (k : Krate) : List Event :=
  match env.fetchCrate k with
  | .error _ => [Event.fetch k]
  | .ok buffer =>
      match env.uploadCrate k buffer with
      | .error _ => [Event.fetch k, Event.upload k]
      | .ok _ => [Event.fetch k, Event.upload k]

/-- See `transferItem` for the behavior of one task. -/
def runTransfer (env : MirrorEnv) : List Krate → List Event
  | [] => []
  | k :: rest => transferItem env k ++ runTransfer env rest

/-- `locked_crates` from `src/mirror.rs`: list the backend keys
(propagating a listing error), diff against the wanted krates, sort and
dedup, stop early when nothing is missing, otherwise transfer everything
and return `Ok(())`. -/
def locked_crates (env : MirrorEnv) (krates : List Krate) :
    List Event × Except String Unit :=
  match env.listResult with
  | .error e => ([], .error e)
  | .ok names =>
      let s := scheduled names krates
      if s.isEmpty then ([], .ok ())
      else (runTransfer env s, .ok ())

/-- The synthetic krate `registry_index` uploads the index snapshot under:
a `Git` source with an empty revision over the canonicalized index URL. -/
def indexKrate (canonUrl ident : String) : Krate :=
  ⟨"crates.io-index", "1.0.0", .git canonUrl "" ident⟩

/-- The collaborators consumed by `registry_index`: the backend `updated`
timestamp query for the synthetic krate, the `fetch::registry` snapshot
fetch, the backend upload, and the clock.  Instants (`DateTime<Utc>`) are
`Int`s on a shared nanosecond axis, so `now - last_updated` is the
elapsed `chrono::Duration` in nanoseconds; the caller's `max_stale` is a
`std::time::Duration`, a nonnegative nanosecond count (`Nat`), converted
by the fallible `chrono::Duration::from_std` (see `durationFromStd`). -/
structure IndexEnv where
  updatedResult : Except String (Option Int)
  fetchIndex : Except String Bytes
  uploadIndex : Bytes → Except String Unit
  now : Int

/-- Observable calls made by the refresh path of `registry_index`. -/
inductive IndexEvent where
  | fetch
  | upload (snapshot : Bytes)
deriving Repr, DecidableEq

/-- The largest `chrono::Duration`, in nanoseconds: chrono (0.4) limits
durations to `i64::MAX` milliseconds, i.e. 9223372036854775807 ms. -/
def chronoMaxNanos : Nat := 9223372036854775807 * 1000000

/-- `chrono::Duration::from_std`: convert a nonnegative
`std::time::Duration` (a nanosecond count) to a `chrono::Duration` (an
`Int` of nanoseconds), failing with `OutOfRangeError` when the value
exceeds chrono's representable maximum — the documented contract of the
external chrono crate (0.4). -/
def durationFromStd (maxStale : Nat) : Except String Int :=
  if maxStale ≤ chronoMaxNanos then .ok (maxStale : Int)
  else .error "Source duration value is out of range for the target type"

/-- The refresh path of `registry_index`: fetch a fresh snapshot
(propagating its error) and upload it under the synthetic key
(propagating the upload error). -/
def refreshIndex (env : IndexEnv) : List IndexEvent × Except String Unit :=
  match env.fetchIndex with
  | .error e => ([.fetch], .error e)
  | .ok index =>
      match env.uploadIndex index with
      | .error e => ([.fetch, .upload index], .error e)
      | .ok _ => ([.fetch, .upload index], .ok ())

/-- `registry_index` from `src/mirror.rs`: when the backend reports a
last-updated timestamp, convert `max_stale` with
`chrono::Duration::from_std(max_stale)?` — whose error returns early,
before any fetch or upload — and return `Ok(())` immediately when
`now - last_updated < max_dur`; when the timestamp is absent or the
`updated()` call fails, fall through to the refresh. -/
def registry_index (env : IndexEnv) (maxStale : Nat) :
    List IndexEvent × Except String Unit :=
  match env.updatedResult with
  | .ok (some lastUpdated) =>
      match durationFromStd maxStale with
      | .error e => ([], .error e)
      | .ok maxDur =>
          if env.now - lastUpdated < maxDur then ([], .ok ())
          else refreshIndex env
  | .ok none => refreshIndex env
  | .error _ => refreshIndex env

/-! ## Concrete fixtures used by counterexamples and witnesses -/

/-- A canonicalizer that succeeds, echoing the URL's serialization and a
fixed ident. -/
def canonIdentity : Url → Except String (String × String) :=
  fun u => .ok (u.serialization, "ident0")

/-- A URL whose `rev` query value "éééé" is 4 characters but 8 UTF-8
bytes; byte offset 7 falls inside the fourth character. -/
def urlPanics : Url :=
  ⟨"git+https://e.com/r?rev=éééé", [("rev", "éééé")]⟩

/-- A URL whose `rev` query value "éééab" is 5 characters and 8 UTF-8
bytes; byte offset 7 is a character boundary after 4 characters. -/
def urlMultibyte : Url :=
  ⟨"git+https://e.com/r?rev=éééab", [("rev", "éééab")]⟩

/-- A URL with an ordinary ASCII revision of 10 characters. -/
def urlGood : Url :=
  ⟨"git+https://e.com/r?rev=9135717aaa", [("rev", "9135717aaa")]⟩

/-- A URL parser that always fails. -/
def parseUrlFail : String → Except String Url :=
  fun _ => .error "relative URL without a base"

/-- A URL parser that succeeds with no query pairs. -/
def parseUrlPlain : String → Except String Url :=
  fun s => .ok ⟨s, []⟩

/-- Two krates with different name/version but the same git source. -/
def kgitA : Krate := ⟨"x", "1.0.0", .git "u" "r" "i"⟩

/-- See `kgitA`. -/
def kgitB : Krate := ⟨"y", "2.0.0", .git "u" "r" "i"⟩

/-- A krate whose fetch fails under `envMixed`. -/
def kbad : Krate := ⟨"bad", "1.0.0", .cratesIo "cbad"⟩

/-- A krate whose fetch succeeds under `envMixed`. -/
def kgood : Krate := ⟨"good", "1.0.0", .cratesIo "cgood"⟩

/-- A krate whose cloud id "abc" is already stored in `envPresent`. -/
def kpresent : Krate := ⟨"foo", "1.0.0", .cratesIo "abc"⟩

/-- Empty backend, all transfers succeed. -/
def envTwoGit : MirrorEnv := ⟨.ok [], fun _ => .ok "bytes", fun _ _ => .ok 4⟩

/-- Backend already storing the key "abc". -/
def envPresent : MirrorEnv := ⟨.ok ["abc"], fun _ => .ok "bytes", fun _ _ => .ok 4⟩

/-- Empty backend where fetching the krate named "bad" fails. -/
def envMixed : MirrorEnv :=
  ⟨.ok [], fun k => if k.name = "bad" then .error "503" else .ok "bytes",
    fun _ _ => .ok 4⟩

/-- Index backend with no stored timestamp. -/
def envIndexStale : IndexEnv := ⟨.ok none, .ok "snapshot", fun _ => .ok (), 100⟩

/-- Index backend whose stored timestamp is 10 nanoseconds old. -/
def envIndexFresh : IndexEnv :=
  ⟨.ok (some 90), .ok "snapshot", fun _ => .ok (), 100⟩

/-- The krate a transfer event is about. -/
def Event.krate : Event → Krate
  | .fetch k => k
  | .upload k => k

/-! ## Order theory for `Source.cmp`

`Source.cmp` on the `Git` variant is the lexicographic combination of
three string comparisons; packaging it as `compareLex`/`compareOn`
lets the Batteries comparator classes provide symmetry and
transitivity. -/

/-- The `Git`-variant comparison as a comparator on field triples. -/
def gitTripleCmp : String × String × String → String × String × String → Ordering :=
  compareLex (compareOn (fun p : String × String × String => p.1))
    (compareLex (compareOn (fun p : String × String × String => p.2.1))
      (compareOn (fun p : String × String × String => p.2.2)))

instance : Batteries.TransCmp gitTripleCmp :=
  inferInstanceAs (Batteries.TransCmp
    (compareLex (compareOn (fun p : String × String × String => p.1))
      (compareLex (compareOn (fun p : String × String × String => p.2.1))
        (compareOn (fun p : String × String × String => p.2.2)))))

theorem strCompare_symm (a b : String) : (compare a b).swap = compare b a :=
  Batteries.OrientedCmp.symm a b

theorem strCompare_le_trans {a b c : String} (h₁ : compare a b ≠ Ordering.gt)
    (h₂ : compare b c ≠ Ordering.gt) : compare a c ≠ Ordering.gt :=
  Batteries.TransCmp.le_trans h₁ h₂

theorem strCompare_eq_iff (a b : String) : compare a b = .eq ↔ a = b :=
  Batteries.BEqCmp.cmp_iff_eq

theorem gitTripleCmp_symm (p q : String × String × String) :
    (gitTripleCmp p q).swap = gitTripleCmp q p :=
  Batteries.OrientedCmp.symm p q

theorem gitTripleCmp_le_trans {p q r : String × String × String}
    (h₁ : gitTripleCmp p q ≠ Ordering.gt) (h₂ : gitTripleCmp q r ≠ Ordering.gt) :
    gitTripleCmp p r ≠ Ordering.gt :=
  Batteries.TransCmp.le_trans h₁ h₂

instance : Batteries.TransCmp Source.cmp where
  symm x y := by
    cases x <;> cases y
    case cratesIo.cratesIo a b => exact strCompare_symm a b
    case cratesIo.git => rfl
    case git.cratesIo => rfl
    case git.git u₁ r₁ i₁ u₂ r₂ i₂ =>
      exact gitTripleCmp_symm (u₁, r₁, i₁) (u₂, r₂, i₂)
  le_trans {x y z} h₁ h₂ := by
    cases x <;> cases y <;> cases z
    case cratesIo.cratesIo.cratesIo => exact strCompare_le_trans h₁ h₂
    case cratesIo.cratesIo.git => exact fun h => nomatch h
    case cratesIo.git.cratesIo => exact absurd rfl h₂
    case cratesIo.git.git => exact fun h => nomatch h
    case git.cratesIo.cratesIo => exact absurd rfl h₁
    case git.cratesIo.git => exact absurd rfl h₁
    case git.git.cratesIo => exact absurd rfl h₂
    case git.git.git u₁ r₁ i₁ u₂ r₂ i₂ u₃ r₃ i₃ =>
      exact gitTripleCmp_le_trans
        (p := (u₁, r₁, i₁)) (q := (u₂, r₂, i₂)) (r := (u₃, r₃, i₃)) h₁ h₂

theorem sourceCmp_le_trans {s t u : Source} (h₁ : Source.cmp s t ≠ Ordering.gt)
    (h₂ : Source.cmp t u ≠ Ordering.gt) : Source.cmp s u ≠ Ordering.gt :=
  Batteries.TransCmp.le_trans h₁ h₂

/-- `Source.cmp` returns `eq` exactly on equal sources: the derived
`Ord`/`PartialEq` of `Source` agree. -/
theorem Source.cmp_eq_eq_iff (s t : Source) : Source.cmp s t = .eq ↔ s = t := by
  cases s <;> cases t
  case cratesIo.cratesIo a b =>
    rw [show Source.cmp (.cratesIo a) (.cratesIo b) = compare a b from rfl,
      strCompare_eq_iff]
    simp
  case cratesIo.git => simp [Source.cmp]
  case git.cratesIo => simp [Source.cmp]
  case git.git u₁ r₁ i₁ u₂ r₂ i₂ =>
    show (compare u₁ u₂).then ((compare r₁ r₂).then (compare i₁ i₂)) = .eq ↔ _
    simp [Ordering.then_eq_eq, strCompare_eq_iff, Source.git.injEq, and_assoc]

theorem Krate.beq_iff {a b : Krate} : Krate.beq a b = true ↔ a.source = b.source := by
  simp [Krate.beq]

instance : IsTrans Krate krateRel :=
  ⟨fun _ _ _ h₁ h₂ => sourceCmp_le_trans h₁ h₂⟩

instance : IsTotal Krate krateRel :=
  ⟨fun a b => by
    rcases h : Source.cmp a.source b.source with _ | _ | _
    · exact Or.inl (by rw [krateRel, Krate.partialCmp, h]; exact fun hc => nomatch hc)
    · exact Or.inl (by rw [krateRel, Krate.partialCmp, h]; exact fun hc => nomatch hc)
    · have hb : Source.cmp b.source a.source = .lt := Batteries.OrientedCmp.cmp_eq_gt.mp h
      exact Or.inr (by rw [krateRel, Krate.partialCmp, hb]; exact fun hc => nomatch hc)⟩

/-! ## Behavior of `rustDedup` -/

theorem dedupFrom_sublist (beq : α → α → Bool) :
    ∀ (l : List α) (a : α), (dedupFrom beq a l).Sublist l := by
  intro l
  induction l with
  | nil => intro a; exact List.Sublist.refl []
  | cons b l ih =>
      intro a
      rw [dedupFrom]
      by_cases h : beq a b = true
      · rw [if_pos h]; exact (ih a).cons b
      · rw [if_neg h]; exact (ih b).cons₂ b

theorem rustDedup_sublist (beq : α → α → Bool) (l : List α) :
    (rustDedup beq l).Sublist l := by
  cases l with
  | nil => exact List.Sublist.refl []
  | cons a l => exact (dedupFrom_sublist beq l a).cons₂ a

/-- Every element below the pivot has a representative with the same
source among the pivot and the survivors. -/
theorem dedupFrom_cover :
    ∀ (l : List Krate) (a : Krate), ∀ x ∈ l,
      ∃ y ∈ a :: dedupFrom Krate.beq a l, y.source = x.source := by
  intro l
  induction l with
  | nil => intro a x hx; cases hx
  | cons b l ih =>
      intro a x hx
      rw [dedupFrom]
      by_cases hab : Krate.beq a b = true
      · rw [if_pos hab]
        rcases List.mem_cons.mp hx with hxb | hxl
        · exact ⟨a, List.mem_cons_self _ _, by rw [hxb]; exact Krate.beq_iff.mp hab⟩
        · exact ih a x hxl
      · rw [if_neg hab]
        rcases List.mem_cons.mp hx with hxb | hxl
        · exact ⟨b, List.mem_cons_of_mem _ (List.mem_cons_self _ _), by rw [hxb]⟩
        · obtain ⟨y, hy, hys⟩ := ih b x hxl
          exact ⟨y, List.mem_cons_of_mem _ hy, hys⟩

/-- Every element of the input has a representative with the same source
surviving dedup. -/
theorem rustDedup_cover (l : List Krate) :
    ∀ x ∈ l, ∃ y ∈ rustDedup Krate.beq l, y.source = x.source := by
  cases l with
  | nil => intro x hx; cases hx
  | cons a l =>
      intro x hx
      rcases List.mem_cons.mp hx with hxa | hxl
      · exact ⟨a, List.mem_cons_self _ _, by rw [hxa]⟩
      · exact dedupFrom_cover l a x hxl

/-- On a sorted tail below a pivot, removing elements equal to the last
retained one leaves pairwise distinct sources. -/
theorem dedupFrom_pairwise_ne :
    ∀ (l : List Krate) (a : Krate), (a :: l).Pairwise krateRel →
      (a :: dedupFrom Krate.beq a l).Pairwise (fun x y => x.source ≠ y.source) := by
  intro l
  induction l with
  | nil => intro a _; simp [dedupFrom]
  | cons b l ih =>
      intro a h
      rcases List.pairwise_cons.mp h with ⟨ha, hbl⟩
      rw [dedupFrom]
      by_cases hab : Krate.beq a b = true
      · rw [if_pos hab]
        refine ih a (List.pairwise_cons.mpr
          ⟨fun x hx => ha x (List.mem_cons_of_mem b hx), (List.pairwise_cons.mp hbl).2⟩)
      · rw [if_neg hab]
        have hlt : Source.cmp a.source b.source = .lt := by
          have hle : Source.cmp a.source b.source ≠ .gt := ha b (List.mem_cons_self b l)
          have hne : Source.cmp a.source b.source ≠ .eq := fun he =>
            hab (Krate.beq_iff.mpr ((Source.cmp_eq_eq_iff _ _).mp he))
          rcases hcmp : Source.cmp a.source b.source with _ | _ | _
          · rfl
          · exact absurd hcmp hne
          · exact absurd hcmp hle
        refine List.pairwise_cons.mpr ⟨fun c hc => ?_, ih b hbl⟩
        have hcmem : c ∈ b :: l :=
          (List.Sublist.cons₂ b (dedupFrom_sublist Krate.beq l b)).subset hc
        have hac : Source.cmp a.source c.source = .lt := by
          rcases List.mem_cons.mp hcmem with hcb | hcl
          · rw [hcb]; exact hlt
          · have hbc : Source.cmp b.source c.source ≠ .gt :=
              (List.pairwise_cons.mp hbl).1 c hcl
            exact Batteries.TransCmp.lt_le_trans hlt hbc
        exact fun he => by simp [he, Batteries.OrientedCmp.cmp_refl] at hac

/-- On a list sorted by the source-only order, removing adjacent
duplicates (by the source-only equality) leaves pairwise *distinct*
sources. -/
theorem rustDedup_pairwise_ne :
    ∀ l : List Krate, l.Pairwise krateRel →
      (rustDedup Krate.beq l).Pairwise (fun a b => a.source ≠ b.source) := by
  intro l h
  cases l with
  | nil => simp [rustDedup]
  | cons a l => exact dedupFrom_pairwise_ne l a h

/-! ## The `locked_crates` pipeline -/

/-- After sort + dedup, the scheduled set holds pairwise distinct
sources. -/
theorem scheduled_pairwise (names : List String) (krates : List Krate) :
    (scheduled names krates).Pairwise (fun a b => a.source ≠ b.source) :=
  rustDedup_pairwise_ne _
    (List.sorted_insertionSort krateRel (toMirror names krates))

/-- Every source present in the diffed set survives into the scheduled
set. -/
theorem scheduled_cover (names : List String) (krates : List Krate) :
    ∀ k ∈ toMirror names krates,
      ∃ y ∈ scheduled names krates, y.source = k.source :=
  fun k hk => rustDedup_cover _ k
    ((List.perm_insertionSort krateRel (toMirror names krates)).mem_iff.mpr hk)

/-- Scheduled krates come from the diffed set. -/
theorem scheduled_subset (names : List String) (krates : List Krate) :
    ∀ k ∈ scheduled names krates, k ∈ toMirror names krates :=
  fun _ hk => (List.perm_insertionSort krateRel (toMirror names krates)).mem_iff.mp
    ((rustDedup_sublist _ _).subset hk)

/-- A krate passing the diff has a cloud id absent from the backend key
list. -/
theorem toMirror_cloud_id_not_mem {names : List String} {krates : List Krate}
    {k : Krate} (hk : k ∈ toMirror names krates) : k.cloud_id ∉ names := by
  have h := (List.mem_filter.mp hk).2
  simp only [Bool.not_eq_true', decide_eq_false_iff_not] at h
  exact fun hmem => h ((List.perm_insertionSort strRel names).mem_iff.mpr hmem)

/-- In a list with pairwise distinct sources, a source that occurs occurs
exactly once. -/
theorem countP_source_eq_one {l : List Krate} {s : Source}
    (hp : l.Pairwise (fun a b => a.source ≠ b.source))
    {y : Krate} (hy : y ∈ l) (hys : y.source = s) :
    l.countP (fun k => decide (k.source = s)) = 1 := by
  induction l with
  | nil => cases hy
  | cons a t ih =>
      rcases List.pairwise_cons.mp hp with ⟨ha, hpt⟩
      rcases List.mem_cons.mp hy with hya | hyt
      · have has : a.source = s := by rw [← hya]; exact hys
        have hzero : t.countP (fun k => decide (k.source = s)) = 0 :=
          List.countP_eq_zero.mpr (fun x hx => by
            simp only [decide_eq_true_eq]
            exact fun hxs => ha x hx (has.trans hxs.symm))
        rw [List.countP_cons, hzero]
        simp [has]
      · have has : a.source ≠ s := fun h => ha y hyt (h.trans hys.symm)
        rw [List.countP_cons, ih hpt hyt]
        simp [has]

/-! ## The transfer phase -/

theorem transferItem_krate (env : MirrorEnv) (k : Krate) :
    ∀ e ∈ transferItem env k, e.krate = k := by
  intro e he
  unfold transferItem at he
  split at he
  · rw [List.mem_singleton] at he; rw [he]; rfl
  · split at he <;>
      (simp only [List.mem_cons, List.mem_singleton, List.not_mem_nil, or_false] at he;
       rcases he with he | he <;> (rw [he]; rfl))

theorem fetch_mem_transferItem (env : MirrorEnv) (k : Krate) :
    Event.fetch k ∈ transferItem env k := by
  unfold transferItem
  split
  · exact List.mem_singleton.mpr rfl
  · split <;> exact List.mem_cons_self _ _

theorem upload_mem_transferItem_iff (env : MirrorEnv) (k k' : Krate) :
    Event.upload k' ∈ transferItem env k ↔
      k' = k ∧ (env.fetchCrate k).isOkB = true := by
  unfold transferItem
  rcases hf : env.fetchCrate k with e | b
  · simp [Except.isOkB]
  · rcases hu : env.uploadCrate k b with e' | n <;> simp [hu, Except.isOkB]

theorem countP_fetch_transferItem (env : MirrorEnv) (k : Krate) (s : Source) :
    (transferItem env k).countP
        (fun e => match e with | .fetch k' => decide (k'.source = s) | .upload _ => false)
      = if k.source = s then 1 else 0 := by
  unfold transferItem
  rcases hf : env.fetchCrate k with e | b
  · by_cases hs : k.source = s <;> simp [List.countP_cons, hs]
  · rcases hu : env.uploadCrate k b with e' | n <;>
      (by_cases hs : k.source = s <;> simp [hu, List.countP_cons, hs])

theorem runTransfer_krate_mem (env : MirrorEnv) :
    ∀ {l : List Krate} {e : Event}, e ∈ runTransfer env l → e.krate ∈ l := by
  intro l
  induction l with
  | nil => intro e he; cases he
  | cons k rest ih =>
      intro e he
      rw [runTransfer] at he
      rcases List.mem_append.mp he with h | h
      · rw [transferItem_krate env k e h]; exact List.mem_cons_self _ _
      · exact List.mem_cons_of_mem _ (ih h)

theorem runTransfer_fetch_mem (env : MirrorEnv) :
    ∀ {l : List Krate} {k : Krate}, k ∈ l → Event.fetch k ∈ runTransfer env l := by
  intro l
  induction l with
  | nil => intro k hk; cases hk
  | cons a rest ih =>
      intro k hk
      rw [runTransfer]
      rcases List.mem_cons.mp hk with rfl | h
      · exact List.mem_append_left _ (fetch_mem_transferItem env k)
      · exact List.mem_append_right _ (ih h)

theorem runTransfer_upload_iff (env : MirrorEnv) :
    ∀ {l : List Krate} {k : Krate},
      Event.upload k ∈ runTransfer env l ↔
        k ∈ l ∧ (env.fetchCrate k).isOkB = true := by
  intro l
  induction l with
  | nil => intro k; simp [runTransfer]
  | cons a rest ih =>
      intro k
      rw [runTransfer]
      constructor
      · intro h
        rcases List.mem_append.mp h with h | h
        · obtain ⟨hk, hok⟩ := (upload_mem_transferItem_iff env a k).mp h
          exact ⟨by rw [hk]; exact List.mem_cons_self _ _, by rw [hk]; exact hok⟩
        · obtain ⟨hk, hok⟩ := ih.mp h
          exact ⟨List.mem_cons_of_mem _ hk, hok⟩
      · rintro ⟨hk, hok⟩
        rcases List.mem_cons.mp hk with rfl | h
        · exact List.mem_append_left _
            ((upload_mem_transferItem_iff env k k).mpr ⟨rfl, hok⟩)
        · exact List.mem_append_right _ (ih.mpr ⟨h, hok⟩)

theorem runTransfer_countP_fetch (env : MirrorEnv) (s : Source) :
    ∀ l : List Krate,
      (runTransfer env l).countP
          (fun e => match e with | .fetch k' => decide (k'.source = s) | .upload _ => false)
        = l.countP (fun k => decide (k.source = s)) := by
  intro l
  induction l with
  | nil => rfl
  | cons a rest ih =>
      rw [runTransfer, List.countP_append, countP_fetch_transferItem, List.countP_cons, ih]
      by_cases hs : a.source = s <;> simp [hs, Nat.add_comm]

/-- On a successful backend listing, `locked_crates` runs the transfer on
the scheduled set and returns `Ok(())` (when the scheduled set is empty
the transfer of the empty list produces no events, matching the early
return). -/
theorem locked_crates_ok {env : MirrorEnv} {krates : List Krate}
    {names : List String} (h : env.listResult = .ok names) :
    locked_crates env krates =
      (runTransfer env (scheduled names krates), .ok ()) := by
  by_cases he : (scheduled names krates).isEmpty
  · have hnil : scheduled names krates = [] := List.isEmpty_iff.mp he
    simp [locked_crates, h, hnil, runTransfer]
  · simp [locked_crates, h, he]

/-! ## The claims -/

/-- Claim C9: for every Krate, the derived CloudId string equals the
checksum for a Registry/CratesIo source and "{ident}-{rev}" for a Git
source, and the derived LocalId string equals "{name}-{version}.crate"
for a Registry source and the bare ident (ignoring rev) for a Git
source. -/
theorem claim_c9_cloud_and_local_ids (name version chksum url rev ident : String) :
    (Krate.mk name version (.cratesIo chksum)).cloud_id = chksum
    ∧ (Krate.mk name version (.git url rev ident)).cloud_id = ident ++ "-" ++ rev
    ∧ (Krate.mk name version (.cratesIo chksum)).local_id =
        name ++ "-" ++ version ++ ".crate"
    ∧ (Krate.mk name version (.git url rev ident)).local_id = ident := by
  refine ⟨rfl, ?_, ?_, rfl⟩ <;>
    simp [Krate.cloud_id, Krate.local_id, toString, String.append_assoc]

/-- Claim C1, evaluated at the failing input: two Krates with identical
Source but different names.  The manual PartialEq and PartialOrd of Krate
compare them equal, but the derived Ord (`#[derive(Ord)]` on `Krate`)
compares them with `Less` because it looks at `name` first — contradicting
the claim that name and version never influence any comparison. -/
theorem claim_c1_derived_ord_uses_name :
    Krate.beq ⟨"a", "1", .cratesIo "c"⟩ ⟨"b", "1", .cratesIo "c"⟩ = true
    ∧ Krate.partialCmp ⟨"a", "1", .cratesIo "c"⟩ ⟨"b", "1", .cratesIo "c"⟩ = .eq
    ∧ Krate.cmp ⟨"a", "1", .cratesIo "c"⟩ ⟨"b", "1", .cratesIo "c"⟩ = .lt := by
  refine ⟨by decide, by decide, by decide⟩

/-- Claim C3: a krate whose CloudId occurs in the key list returned by the
backend's `list()` is excluded from the needing-mirroring set by the
lookup, and is consequently never fetched nor uploaded by this
`locked_crates` invocation. -/
theorem claim_c3_present_key_never_transferred
    {env : MirrorEnv} {krates : List Krate} {names : List String} {k : Krate}
    (hlist : env.listResult = .ok names) (hmem : k.cloud_id ∈ names) :
    k ∉ toMirror names krates
    ∧ Event.fetch k ∉ (locked_crates env krates).1
    ∧ Event.upload k ∉ (locked_crates env krates).1 := by
  rw [locked_crates_ok hlist]
  refine ⟨fun hk => toMirror_cloud_id_not_mem hk hmem, ?_, ?_⟩ <;>
    exact fun hev => toMirror_cloud_id_not_mem
      (scheduled_subset names krates _ (runTransfer_krate_mem env hev)) hmem

/-- Witness for C3 at a concrete input: the backend already stores key
"abc", which is `kpresent`'s cloud id. -/
theorem claim_c3_witness :
    envPresent.listResult = .ok ["abc"]
    ∧ Krate.cloud_id kpresent ∈ ["abc"]
    ∧ (kpresent ∉ toMirror ["abc"] [kpresent]
       ∧ Event.fetch kpresent ∉ (locked_crates envPresent [kpresent]).1
       ∧ Event.upload kpresent ∉ (locked_crates envPresent [kpresent]).1) :=
  ⟨rfl, by decide, claim_c3_present_key_never_transferred rfl (by decide)⟩

/-- Claim C7: given a successful listing, `locked_crates` always returns
success; every scheduled krate is fetched regardless of the outcome of any
other transfer, and a krate is uploaded exactly when it is scheduled and
its own fetch succeeded. -/
theorem claim_c7_failures_isolated
    {env : MirrorEnv} {krates : List Krate} {names : List String}
    (hlist : env.listResult = .ok names) :
    (locked_crates env krates).2 = .ok ()
    ∧ (∀ k ∈ scheduled names krates, Event.fetch k ∈ (locked_crates env krates).1)
    ∧ (∀ k, Event.upload k ∈ (locked_crates env krates).1 ↔
        k ∈ scheduled names krates ∧ (env.fetchCrate k).isOkB = true) := by
  rw [locked_crates_ok hlist]
  exact ⟨rfl, fun k hk => runTransfer_fetch_mem env hk,
    fun k => runTransfer_upload_iff env⟩

/-- Witness for C7 at a concrete input: `kbad`'s fetch fails, `kgood`'s
succeeds; both are fetched, only `kgood` is uploaded, and the call still
returns success. -/
theorem claim_c7_witness :
    envMixed.listResult = .ok []
    ∧ (locked_crates envMixed [kbad, kgood]).2 = .ok ()
    ∧ Event.fetch kbad ∈ (locked_crates envMixed [kbad, kgood]).1
    ∧ Event.fetch kgood ∈ (locked_crates envMixed [kbad, kgood]).1
    ∧ Event.upload kbad ∉ (locked_crates envMixed [kbad, kgood]).1
    ∧ Event.upload kgood ∈ (locked_crates envMixed [kbad, kgood]).1 :=
  ⟨rfl,
   (claim_c7_failures_isolated rfl).1,
   (claim_c7_failures_isolated rfl).2.1 kbad (by decide),
   (claim_c7_failures_isolated rfl).2.1 kgood (by decide),
   fun h => absurd (((claim_c7_failures_isolated rfl).2.2 kbad).mp h) (by decide),
   ((claim_c7_failures_isolated rfl).2.2 kgood).mpr (by decide)⟩

/-- Claim C2: the sort-then-dedup step leaves pairwise distinct sources in
the scheduled set, and whenever some krate with source `s` needs
mirroring, the transfer phase fetches source `s` exactly once. -/
theorem claim_c2_transfer_once_per_source
    {env : MirrorEnv} {krates : List Krate} {names : List String} {s : Source}
    (hlist : env.listResult = .ok names)
    (hneed : ∃ k ∈ toMirror names krates, k.source = s) :
    (scheduled names krates).Pairwise (fun a b => a.source ≠ b.source)
    ∧ (locked_crates env krates).1.countP
        (fun e => match e with
          | .fetch k => decide (k.source = s)
          | .upload _ => false) = 1 := by
  obtain ⟨k, hk, hks⟩ := hneed
  obtain ⟨y, hy, hys⟩ := scheduled_cover names krates k hk
  refine ⟨scheduled_pairwise names krates, ?_⟩
  rw [locked_crates_ok hlist]
  show (runTransfer env (scheduled names krates)).countP _ = 1
  rw [runTransfer_countP_fetch]
  exact countP_source_eq_one (scheduled_pairwise names krates) hy (hys.trans hks)

/-- Witness for C2 at a concrete input: two distinct krates sharing one
git source are both missing from the backend, and the transfer fetches
that source exactly once. -/
theorem claim_c2_witness :
    envTwoGit.listResult = .ok []
    ∧ (∃ k ∈ toMirror [] [kgitA, kgitB], k.source = .git "u" "r" "i")
    ∧ ((scheduled [] [kgitA, kgitB]).Pairwise (fun a b => a.source ≠ b.source)
       ∧ (locked_crates envTwoGit [kgitA, kgitB]).1.countP
           (fun e => match e with
             | .fetch k => decide (k.source = .git "u" "r" "i")
             | .upload _ => false) = 1) :=
  ⟨rfl, ⟨kgitA, by decide, rfl⟩,
   claim_c2_transfer_once_per_source rfl ⟨kgitA, by decide, rfl⟩⟩

/-- Claim C6, counterexample to the claim as stated: with a stored fresh
timestamp but a `max_stale` one nanosecond beyond chrono's representable
range, `chrono::Duration::from_std(max_stale)?` (mirror.rs line 28)
returns early with its conversion error — the call neither skips with
success (although `updated()` succeeded, the timestamp is present, and
`now - last_updated < max_stale`) nor proceeds with the refresh. -/
theorem claim_c6_counterexample :
    envIndexFresh.updatedResult = .ok (some 90)
    ∧ (envIndexFresh.now - 90 : Int) < ((9223372036854775807000001 : Nat) : Int)
    ∧ registry_index envIndexFresh 9223372036854775807000001 =
        ([], .error "Source duration value is out of range for the target type")
    ∧ registry_index envIndexFresh 9223372036854775807000001 ≠ ([], .ok ()) := by
  have hval : registry_index envIndexFresh 9223372036854775807000001 =
      ([], .error "Source duration value is out of range for the target type") := by
    rfl
  refine ⟨rfl, by decide, hval, ?_⟩
  rw [hval]
  intro h
  simp at h

/-- Claim C6, amended: `registry_index` returns success without fetching
or uploading exactly when the backend reports a present last-updated
timestamp, `max_stale` is within chrono's representable range, and
`now - last_updated < max_stale`; with a present timestamp and
`max_stale` beyond that range it returns the conversion error with no
fetch and no upload; when the timestamp is absent or the `updated()`
call fails, the refresh proceeds, and the freshly fetched snapshot is
what gets uploaded. -/
theorem claim_c6_amended (env : IndexEnv) (maxStale : Nat) :
    ((registry_index env maxStale = ([], .ok ())) ↔
      (∃ ts, env.updatedResult = .ok (some ts)
        ∧ maxStale ≤ chronoMaxNanos ∧ env.now - ts < (maxStale : Int)))
    ∧ (∀ ts, env.updatedResult = .ok (some ts) → chronoMaxNanos < maxStale →
        (registry_index env maxStale).1 = []
        ∧ (registry_index env maxStale).2 ≠ .ok ())
    ∧ ((env.updatedResult = .ok none ∨ ∃ e, env.updatedResult = .error e) →
        registry_index env maxStale = refreshIndex env)
    ∧ (∀ idx, env.fetchIndex = .ok idx →
        (refreshIndex env).1 = [.fetch, .upload idx]) := by
  have href : refreshIndex env ≠ ([], .ok ()) := by
    unfold refreshIndex
    rcases hf : env.fetchIndex with e | idx
    · intro h; simp at h
    · rcases hu : env.uploadIndex idx with e' | u <;> (intro h; simp [hu] at h)
  refine ⟨?_, ?_, ?_, ?_⟩
  · unfold registry_index
    rcases hup : env.updatedResult with e | ts?
    · simp [href]
    · rcases ts? with _ | ts
      · simp [href]
      · unfold durationFromStd
        by_cases hin : maxStale ≤ chronoMaxNanos
        · rw [if_pos hin]
          by_cases hfresh : env.now - ts < (maxStale : Int)
          · simp only [if_pos hfresh]
            constructor
            · intro _; exact ⟨ts, rfl, hin, hfresh⟩
            · intro _; trivial
          · simp only [if_neg hfresh]
            constructor
            · intro h; exact absurd h href
            · rintro ⟨ts', hts', _, hlt⟩
              cases hts'
              exact absurd hlt hfresh
        · rw [if_neg hin]
          constructor
          · intro h; simp at h
          · rintro ⟨ts', hts', hin', _⟩
            cases hts'
            exact absurd hin' hin
  · intro ts hts hgt
    unfold registry_index durationFromStd
    rw [hts, if_neg (by omega)]
    exact ⟨rfl, fun h => by simp at h⟩
  · intro h
    unfold registry_index
    rcases h with h | ⟨e, h⟩ <;> rw [h]
  · intro idx hidx
    unfold refreshIndex
    rw [hidx]
    rcases hu : env.uploadIndex idx with e | u <;> simp [hu]

/-- Witness for the amended C6 at concrete inputs: with no stored
timestamp the refresh proceeds and uploads the fetched snapshot, and with
a 10-nanosecond-old timestamp and an in-range 20-nanosecond window the
refresh is skipped with success. -/
theorem claim_c6_witness :
    envIndexStale.updatedResult = .ok none
    ∧ registry_index envIndexStale 5 = refreshIndex envIndexStale
    ∧ (refreshIndex envIndexStale).1 = [.fetch, .upload "snapshot"]
    ∧ registry_index envIndexFresh 20 = ([], .ok ()) :=
  ⟨rfl,
   (claim_c6_amended envIndexStale 5).2.2.1 (Or.inl rfl),
   (claim_c6_amended envIndexStale 5).2.2.2 "snapshot" rfl,
   (claim_c6_amended envIndexFresh 20).1.mpr ⟨90, rfl, by decide, by decide⟩⟩

/-! ## Byte slicing: claims C4 and C10 -/

theorem takeBytes_ascii :
    ∀ (cs : List Char) (n : Nat), (∀ c ∈ cs, c.utf8Size = 1) → n ≤ cs.length →
      takeBytes cs n = some (cs.take n) := by
  intro cs
  induction cs with
  | nil =>
      intro n _ hn
      have h0 : n = 0 := Nat.le_zero.mp hn
      rw [h0]; rfl
  | cons c cs ih =>
      intro n hall hn
      cases n with
      | zero => rfl
      | succ m =>
          have hc : c.utf8Size = 1 := hall c (List.mem_cons_self _ _)
          rw [takeBytes, hc, if_pos (by omega)]
          have hm : m + 1 - 1 = m := by omega
          rw [hm, ih m (fun x hx => hall x (List.mem_cons_of_mem c hx))
            (by simp at hn; omega)]
          simp

theorem utf8Len_ascii :
    ∀ (cs : List Char), (∀ c ∈ cs, c.utf8Size = 1) →
      (cs.map Char.utf8Size).sum = cs.length := by
  intro cs
  induction cs with
  | nil => intro _; rfl
  | cons c cs ih =>
      intro hall
      simp [hall c (List.mem_cons_self _ _),
        ih (fun x hx => hall x (List.mem_cons_of_mem c hx)), Nat.add_comm]

/-- Claim C4, counterexample to the claim as stated: with a canonicalizer
that succeeds, a rev value of "éééab" (5 characters, 8 UTF-8 bytes, byte
offset 7 on a character boundary) produces a Git source whose rev is
"éééa" — the first 7 *bytes* — which differs from the first 7 characters
of the supplied value. -/
theorem claim_c4_counterexample :
    Source.from_git_url canonIdentity urlMultibyte =
      .ok (.git "git+https://e.com/r?rev=éééab" "éééa" "ident0")
    ∧ "éééa" ≠ ("éééab".data.take 7).asString := by
  constructor
  · decide
  · decide

/-- Claim C4, amended: `from_git_url` returns `Err` exactly when the rev
query parameter is absent, or its value is shorter than 7 UTF-8 bytes, or
(the 7-byte slice succeeding) canonicalization fails; on success the
produced rev is the decoding of the first 7 bytes of the supplied value
(the first 7 characters only when those bytes are character-aligned, e.g.
for ASCII revs).  The non-character-boundary case panics instead of
returning (see C10). -/
theorem claim_c4_amended (canon : Url → Except String (String × String))
    (url : Url) :
    ((Source.from_git_url canon url).isErr = true ↔
      (url.findRev = none
        ∨ ∃ rev, url.findRev = some rev ∧
            (utf8Len rev < 7
              ∨ ((byteSlicePrefix rev 7).isSome = true
                  ∧ ∃ e, canon url = .error e))))
    ∧ (∀ rev rev7 curl ident, url.findRev = some rev → 7 ≤ utf8Len rev →
        byteSlicePrefix rev 7 = some rev7 → canon url = .ok (curl, ident) →
        Source.from_git_url canon url = .ok (.git curl rev7 ident)) := by
  constructor
  · rcases hr : url.findRev with _ | rev
    · simp [Source.from_git_url, hr, RResult.isErr]
    · by_cases hlen : utf8Len rev < 7
      · simp [Source.from_git_url, hr, hlen, RResult.isErr]
      · rcases hb : byteSlicePrefix rev 7 with _ | rev7
        · simp [Source.from_git_url, hr, hlen, hb, RResult.isErr]
        · rcases hc : canon url with e | pr
          · simp [Source.from_git_url, hr, hlen, hb, hc, RResult.isErr]
          · obtain ⟨curl, ident⟩ := pr
            simp [Source.from_git_url, hr, hlen, hb, hc, RResult.isErr]
  · intro rev rev7 curl ident hr hlen hb hc
    simp only [Source.from_git_url, hr]
    rw [if_neg (by omega)]
    simp only [hb, hc]

/-- Witness for the amended C4 at a concrete input: an ordinary 10-byte
ASCII rev is truncated to its first 7 bytes "9135717". -/
theorem claim_c4_witness :
    urlGood.findRev = some "9135717aaa"
    ∧ 7 ≤ utf8Len "9135717aaa"
    ∧ byteSlicePrefix "9135717aaa" 7 = some "9135717"
    ∧ canonIdentity urlGood = .ok ("git+https://e.com/r?rev=9135717aaa", "ident0")
    ∧ Source.from_git_url canonIdentity urlGood =
        .ok (.git "git+https://e.com/r?rev=9135717aaa" "9135717" "ident0") :=
  ⟨rfl, by decide, by decide, rfl,
   (claim_c4_amended canonIdentity urlGood).2 "9135717aaa" "9135717" _ _
     rfl (by decide) (by decide) rfl⟩

/-- Claim C10, counterexample to the claim as stated: `from_git_url`
panics on a rev value of "éééé" (8 UTF-8 bytes, so the length check
passes, but byte offset 7 falls inside the fourth character). -/
theorem claim_c10_counterexample :
    (Source.from_git_url canonIdentity urlPanics).isPanic = true := by
  decide

/-- Claim C10, amended: after the length check the 7-byte slice start is
always in bounds, and the only way `from_git_url` can panic is a rev value
of at least 7 bytes whose byte offset 7 is not a character boundary; in
particular for rev values made of ASCII characters (such as hexadecimal
revision ids) the function is total and never panics. -/
theorem claim_c10_amended (canon : Url → Except String (String × String))
    (url : Url) :
    ((Source.from_git_url canon url).isPanic = true →
      ∃ rev, url.findRev = some rev ∧ 7 ≤ utf8Len rev
        ∧ byteSlicePrefix rev 7 = none)
    ∧ ((∀ rev, url.findRev = some rev → ∀ c ∈ rev.data, c.utf8Size = 1) →
        (Source.from_git_url canon url).isPanic = false) := by
  constructor
  · intro hp
    rcases hr : url.findRev with _ | rev
    · simp [Source.from_git_url, hr, RResult.isPanic] at hp
    · by_cases hlen : utf8Len rev < 7
      · simp [Source.from_git_url, hr, hlen, RResult.isPanic] at hp
      · rcases hb : byteSlicePrefix rev 7 with _ | rev7
        · exact ⟨rev, rfl, by omega, hb⟩
        · rcases hc : canon url with e | pr
          · simp [Source.from_git_url, hr, hlen, hb, hc, RResult.isPanic] at hp
          · obtain ⟨curl, ident⟩ := pr
            simp [Source.from_git_url, hr, hlen, hb, hc, RResult.isPanic] at hp
  · intro hasc
    rcases hr : url.findRev with _ | rev
    · simp [Source.from_git_url, hr, RResult.isPanic]
    · by_cases hlen : utf8Len rev < 7
      · simp [Source.from_git_url, hr, hlen, RResult.isPanic]
      · have hall : ∀ c ∈ rev.data, c.utf8Size = 1 := hasc rev hr
        have hlen' : 7 ≤ rev.data.length := by
          have := utf8Len_ascii rev.data hall
          unfold utf8Len at hlen
          omega
        have hb : byteSlicePrefix rev 7 = some ((rev.data.take 7).asString) := by
          unfold byteSlicePrefix
          rw [takeBytes_ascii rev.data 7 hall hlen']
          rfl
        rcases hc : canon url with e | pr
        · simp [Source.from_git_url, hr, hlen, hb, hc, RResult.isPanic]
        · obtain ⟨curl, ident⟩ := pr
          simp [Source.from_git_url, hr, hlen, hb, hc, RResult.isPanic]

/-- Witness for the amended C10 at a concrete input: an all-ASCII rev,
with an always-succeeding canonicalizer, never panics. -/
theorem claim_c10_witness :
    (∀ rev, urlGood.findRev = some rev → ∀ c ∈ rev.data, c.utf8Size = 1)
    ∧ (Source.from_git_url canonIdentity urlGood).isPanic = false := by
  have hasc : ∀ rev, urlGood.findRev = some rev → ∀ c ∈ rev.data, c.utf8Size = 1 := by
    intro rev h
    have h2 : some rev = some "9135717aaa" := h.symm.trans rfl
    cases h2
    decide
  exact ⟨hasc, (claim_c10_amended canonIdentity urlGood).2 hasc⟩

/-! ## Lock-file ingestion: claims C5 and C8 -/

theorem withKrate_eq_ok {k : Krate} {r : RResult (List Krate)}
    {out : List Krate} (h : withKrate k r = .ok out) :
    ∃ l, r = .ok l ∧ out = k :: l := by
  rcases r with l | e | m
  · cases h; exact ⟨l, rfl, rfl⟩
  · cases h
  · cases h

/-- Claim C5: for a package record carrying the crates.io registry
locator, an inline checksum yields exactly one `CratesIo` krate with that
checksum; otherwise a krate is emitted if and only if the composite
metadata key is present (its entry being consumed), and when the key is
absent the record is silently dropped, the remaining records being
processed unchanged either way. -/
theorem claim_c5_registry_records
    (parseUrl : String → Except String Url)
    (canon : Url → Except String (String × String))
    (p : Package) (rest : List Package) (meta : List (String × String))
    (hsrc : p.source = some cratesIoRegistry) :
    (∀ chksum, p.checksum = some chksum →
      processPackages parseUrl canon (p :: rest) meta =
        withKrate ⟨p.name, p.version, .cratesIo chksum⟩
          (processPackages parseUrl canon rest meta))
    ∧ (p.checksum = none →
        (∀ chksum meta',
          removeKey meta (checksumKey p.name p.version) = some (chksum, meta') →
            processPackages parseUrl canon (p :: rest) meta =
              withKrate ⟨p.name, p.version, .cratesIo chksum⟩
                (processPackages parseUrl canon rest meta'))
        ∧ (removeKey meta (checksumKey p.name p.version) = none →
            processPackages parseUrl canon (p :: rest) meta =
              processPackages parseUrl canon rest meta)) := by
  refine ⟨fun chksum hchk => ?_, fun hchk => ⟨fun chksum meta' hrem => ?_, fun hrem => ?_⟩⟩
  · rw [processPackages, hsrc]
    simp [hchk]
  · rw [processPackages, hsrc]
    simp [hchk, hrem]
  · rw [processPackages, hsrc]
    simp [hchk, hrem]

/-- Witness for C5 at concrete inputs: a V2 record with an inline
checksum, a V1 record whose composite key is present in the metadata (and
is consumed), and a V1 record with no matching metadata entry (dropped
silently). -/
theorem claim_c5_witness :
    (Package.mk "foo" "1.0.0" (some cratesIoRegistry) (some "abc")).source
      = some cratesIoRegistry
    ∧ processPackages parseUrlFail canonIdentity
        [⟨"foo", "1.0.0", some cratesIoRegistry, some "abc"⟩] [] =
        withKrate ⟨"foo", "1.0.0", .cratesIo "abc"⟩
          (processPackages parseUrlFail canonIdentity [] [])
    ∧ processPackages parseUrlFail canonIdentity
        [⟨"bar", "2.0.0", some cratesIoRegistry, none⟩]
        [(checksumKey "bar" "2.0.0", "def")] =
        withKrate ⟨"bar", "2.0.0", .cratesIo "def"⟩
          (processPackages parseUrlFail canonIdentity [] [])
    ∧ processPackages parseUrlFail canonIdentity
        [⟨"bar", "2.0.0", some cratesIoRegistry, none⟩] [] =
        processPackages parseUrlFail canonIdentity [] [] :=
  ⟨rfl,
   (claim_c5_registry_records parseUrlFail canonIdentity
     ⟨"foo", "1.0.0", some cratesIoRegistry, some "abc"⟩ [] [] rfl).1 "abc" rfl,
   ((claim_c5_registry_records parseUrlFail canonIdentity
     ⟨"bar", "2.0.0", some cratesIoRegistry, none⟩ []
     [(checksumKey "bar" "2.0.0", "def")] rfl).2 rfl).1 "def" []
     (by rw [removeKey, if_pos rfl]),
   ((claim_c5_registry_records parseUrlFail canonIdentity
     ⟨"bar", "2.0.0", some cratesIoRegistry, none⟩ [] [] rfl).2 rfl).2 rfl⟩

/-- Claim C8: record-level input errors are isolated — a record with no
source is skipped silently, a record whose source fails URL parsing or
whose URL the canonicalizer rejects is skipped without affecting the
remaining records or failing the call, and the emitted krates carry the
surviving records' (name, version) pairs as a subsequence of the file
order. -/
theorem claim_c8_record_errors_isolated
    (parseUrl : String → Except String Url)
    (canon : Url → Except String (String × String)) :
    (∀ (p : Package) rest meta, p.source = none →
      processPackages parseUrl canon (p :: rest) meta =
        processPackages parseUrl canon rest meta)
    ∧ (∀ (p : Package) rest meta src e, p.source = some src →
        src ≠ cratesIoRegistry → parseUrl src = .error e →
        processPackages parseUrl canon (p :: rest) meta =
          processPackages parseUrl canon rest meta)
    ∧ (∀ (p : Package) rest meta src u e, p.source = some src →
        src ≠ cratesIoRegistry → parseUrl src = .ok u →
        Source.from_git_url canon u = .err e →
        processPackages parseUrl canon (p :: rest) meta =
          processPackages parseUrl canon rest meta)
    ∧ (∀ pkgs meta out, processPackages parseUrl canon pkgs meta = .ok out →
        (out.map (fun k => (k.name, k.version))).Sublist
          (pkgs.map (fun q => (q.name, q.version)))) := by
  refine ⟨fun p rest meta hsrc => ?_, fun p rest meta src e hsrc hne hpu => ?_,
    fun p rest meta src u e hsrc hne hpu hgit => ?_, fun pkgs => ?_⟩
  · rw [processPackages, hsrc]
  · rw [processPackages, hsrc]
    simp [hne, hpu]
  · rw [processPackages, hsrc]
    simp [hne, hpu, hgit]
  · induction pkgs with
    | nil =>
        intro meta out h
        cases h
        simp
    | cons p rest ih =>
        intro meta out h
        rw [processPackages] at h
        split at h
        · exact (ih _ _ h).cons _
        · split at h
          · split at h
            · obtain ⟨l, hl, hout⟩ := withKrate_eq_ok h
              rw [hout]
              simp only [List.map_cons]
              exact List.Sublist.cons₂ _ (ih _ _ hl)
            · split at h
              · obtain ⟨l, hl, hout⟩ := withKrate_eq_ok h
                rw [hout]
                simp only [List.map_cons]
                exact List.Sublist.cons₂ _ (ih _ _ hl)
              · exact (ih _ _ h).cons _
          · split at h
            · exact (ih _ _ h).cons _
            · split at h
              · obtain ⟨l, hl, hout⟩ := withKrate_eq_ok h
                rw [hout]
                simp only [List.map_cons]
                exact List.Sublist.cons₂ _ (ih _ _ hl)
              · exact (ih _ _ h).cons _
              · cases h

/-- Witness for C8 at concrete inputs: a path record (no source), a record
with an unparseable source, a git record whose URL lacks a rev specifier
(a canonicalization-stage error), and an order check on a successfully
ingested record. -/
theorem claim_c8_witness :
    processPackages parseUrlFail canonIdentity
        [⟨"loc", "0.1.0", none, none⟩] [] =
      processPackages parseUrlFail canonIdentity [] []
    ∧ processPackages parseUrlFail canonIdentity
        [⟨"badurl", "0.1.0", some "::notaurl::", none⟩] [] =
      processPackages parseUrlFail canonIdentity [] []
    ∧ processPackages parseUrlPlain canonIdentity
        [⟨"norev", "0.1.0", some "git+https://e.com/r", none⟩] [] =
      processPackages parseUrlPlain canonIdentity [] []
    ∧ (processPackages parseUrlFail canonIdentity
        [⟨"foo", "1.0.0", some cratesIoRegistry, some "abc"⟩] [] =
          .ok [⟨"foo", "1.0.0", .cratesIo "abc"⟩]
       → ([(⟨"foo", "1.0.0", .cratesIo "abc"⟩ : Krate)].map
            (fun k => (k.name, k.version))).Sublist
          ([(⟨"foo", "1.0.0", some cratesIoRegistry, some "abc"⟩ : Package)].map
            (fun q => (q.name, q.version)))) :=
  ⟨(claim_c8_record_errors_isolated parseUrlFail canonIdentity).1
     ⟨"loc", "0.1.0", none, none⟩ [] [] rfl,
   (claim_c8_record_errors_isolated parseUrlFail canonIdentity).2.1
     ⟨"badurl", "0.1.0", some "::notaurl::", none⟩ [] [] "::notaurl::"
     "relative URL without a base" rfl (by decide) rfl,
   (claim_c8_record_errors_isolated parseUrlPlain canonIdentity).2.2.1
     ⟨"norev", "0.1.0", some "git+https://e.com/r", none⟩ [] []
     "git+https://e.com/r" ⟨"git+https://e.com/r", []⟩
     "url doesn't contain a revision specifier" rfl (by decide) rfl rfl,
   fun h => (claim_c8_record_errors_isolated parseUrlFail canonIdentity).2.2.2
     [⟨"foo", "1.0.0", some cratesIoRegistry, some "abc"⟩] []
     [⟨"foo", "1.0.0", .cratesIo "abc"⟩] h⟩
